import Mathlib

/-!
# Verification of the decision scorer (`decision.py`)

Shallow embedding of the multi-criteria decision scorer. Conventions:

* Python numbers are modelled as exact rationals (`ℚ`); the `statistics`
  module itself computes means and variances with exact fraction arithmetic,
  and every spec-level numeric claim is stated in exact arithmetic.
* A Python function that can raise an uncaught exception is embedded with
  return type `Except String α`; `.error msg` models the raised exception.
* Python `dict` values are embedded as association lists with Python's
  insertion semantics (update in place when the key is already present,
  append otherwise); iteration order is insertion order.
* `Option` objects carry an `oid : Nat` field modelling Python object
  identity: the class defines `__hash__` (by name) but no `__eq__`, so
  dictionary key equality is object identity.  Distinct allocations get
  distinct `oid`s.
* The hidden process-wide generator used by `random.gauss` is modelled as an
  explicit stream `Rng` of standard-normal draws threaded through the
  computation: `random.gauss(mu, sigma)` returns `mu + sigma * z` where `z`
  is the next draw of the stream.  The distributional content of the draws
  is abstracted; only the data flow of the generator state matters here.
-/

/-- Python attribute dictionary: ordered string-keyed numeric mapping. -/
abbrev Params := List (String × ℚ)

/-- `d.get(k, default)` on a Python dict. -/
def Params.getD (p : Params) (k : String) (d : ℚ) : ℚ :=
  match p.find? (fun kv => kv.1 = k) with
  | some kv => kv.2
  | none => d

/-- Raw lookup `d[k]`-style presence test: `some v` iff key `k` is present. -/
def Params.lookup (p : Params) (k : String) : Option ℚ :=
  (p.find? (fun kv => kv.1 = k)).map (fun kv => kv.2)

/-- `class Option` of `decision.py`: a name and a parameter mapping.
`oid` models Python object identity (see module docstring). -/
structure Decision.Option where
  oid : Nat
  name : String
  params : Params
deriving DecidableEq

/-- `time_constraint(option)`: keep options whose `time_taken` (default 0)
is at most 35. -/
def Decision.time_constraint (option : Decision.Option) : Bool :=
  Params.getD option.params "time_taken" 0 ≤ 35

/-- `CONSTRAINTS = [time_constraint]`. -/
def Decision.CONSTRAINTS : List (Decision.Option → Bool) :=
  [Decision.time_constraint]

/-- `apply_constraints(options)`: the options on which every constraint
holds. -/
def Decision.apply_constraints (options : List Decision.Option) :
    List Decision.Option :=
  options.filter (fun opt => Decision.CONSTRAINTS.all (fun c => c opt))

/-- Criterion `time_score`: negated duration. -/
def Decision.time_score (option : Decision.Option) : ℚ :=
  -(Params.getD option.params "time_taken" 0)

/-- Criterion `social_score`. -/
def Decision.social_score (option : Decision.Option) : ℚ :=
  Params.getD option.params "social_value" 0

/-- Criterion `novelty_score`. -/
def Decision.novelty_score (option : Decision.Option) : ℚ :=
  Params.getD option.params "novelty_meter" 0

/-- Criterion `learn_score`. -/
def Decision.learn_score (option : Decision.Option) : ℚ :=
  Params.getD option.params "learn_index" 0

/-- Criterion `emotional_score`. -/
def Decision.emotional_score (option : Decision.Option) : ℚ :=
  Params.getD option.params "move_heart" 0

/-- `CRITERIA`: the shipped registry, in source (insertion) order. -/
def Decision.CRITERIA : List (String × (Decision.Option → ℚ)) :=
  [("time_score", Decision.time_score),
   ("social_score", Decision.social_score),
   ("novelty_score", Decision.novelty_score),
   ("learn_score", Decision.learn_score),
   ("emotional_score", Decision.emotional_score)]

/-- Python `min(scores)` over a list: raises `ValueError` on an empty
sequence. -/
def Decision.pymin (scores : List ℚ) : Except String ℚ :=
  match scores with
  | [] => .error "ValueError: min() arg is an empty sequence"
  | x :: xs => .ok (xs.foldl min x)

/-- Python `max(scores)` over a list: raises `ValueError` on an empty
sequence. -/
def Decision.pymax (scores : List ℚ) : Except String ℚ :=
  match scores with
  | [] => .error "ValueError: max() arg is an empty sequence"
  | x :: xs => .ok (xs.foldl max x)

/-- `normalize(scores)` from `decision.py`: min-max rescaling, `0.5`
everywhere when all raw values coincide; `min` of an empty list raises. -/
def Decision.normalize (scores : List ℚ) : Except String (List ℚ) := do
  let min_s ← Decision.pymin scores
  let max_s ← Decision.pymax scores
  if min_s = max_s then
    .ok (scores.map (fun _ => (1 : ℚ) / 2))
  else
    .ok (scores.map (fun s => (s - min_s) / (max_s - min_s)))

/-- `class Context`: two numeric situational signals. -/
structure Decision.Context where
  device : ℚ
  pressing_matters : ℚ
deriving DecidableEq

/-- `compute_weights(context)`: time weight is `1.0 + pressing_matters`,
all other shipped criteria get `1.0`. -/
def Decision.compute_weights (context : Decision.Context) :
    List (String × ℚ) :=
  [("time_score", 1 + context.pressing_matters),
   ("social_score", 1),
   ("novelty_score", 1),
   ("learn_score", 1),
   ("emotional_score", 1)]

/-- The hidden process-wide generator behind `random.gauss`, modelled as a
stream of standard-normal draws (index 0 is the next draw). -/
def Decision.Rng : Type := Nat → ℚ

/-- Draw once from the stream: hand back the front value and the advanced
generator state. -/
def Decision.Rng.next (g : Decision.Rng) : ℚ × Decision.Rng :=
  (g 0, fun n => g (n + 1))

/-- `random.gauss(mu, sigma)`: `mu + sigma * z` where `z` is the next
standard-normal draw of the hidden global generator. -/
def Decision.gauss (mu sigma : ℚ) (g : Decision.Rng) : ℚ × Decision.Rng :=
  let zg := g.next
  (mu + sigma * zg.1, zg.2)

/-- `[random.gauss(scaled, sigma) for _ in range(n)]`: `n` consecutive
draws, threading the hidden generator state. -/
def Decision.gaussList (mu sigma : ℚ) :
    Nat → Decision.Rng → List ℚ × Decision.Rng
  | 0, g => ([], g)
  | n + 1, g =>
      let xg := Decision.gauss mu sigma g
      let rest := Decision.gaussList mu sigma n xg.2
      (xg.1 :: rest.1, rest.2)

/-- `simulate_fulfilment(option, context, n)`: scale the option's base
fulfilment by the context, then draw `n` noisy samples with `sigma = 0.5`
from the hidden global generator.  The call in `score` uses the default
`n = 100`. -/
def Decision.simulate_fulfilment (option : Decision.Option)
    (context : Decision.Context) (n : Nat) (g : Decision.Rng) :
    List ℚ × Decision.Rng :=
  let base := Params.getD option.params "fulfilment_value" 0
  let scaled := base * (1 + (1 : ℚ) / 2 * context.pressing_matters
    + (1 : ℚ) / 2 * context.device)
  Decision.gaussList scaled ((1 : ℚ) / 2) n g

/-- `statistics.mean(values)`: raises `StatisticsError` on an empty list;
the module computes with exact fraction arithmetic. -/
def Decision.pymean (values : List ℚ) : Except String ℚ :=
  match values with
  | [] => .error "StatisticsError: mean requires at least one data point"
  | _ => .ok (values.sum / (values.length : ℚ))

/-- `statistics.variance(values)`: the sample variance, sum of squared
deviations from the mean divided by `n - 1` (only ever invoked by
`expected_utility` when `n > 1`). -/
def Decision.pyvariance (values : List ℚ) : ℚ :=
  let mu := values.sum / (values.length : ℚ)
  (values.map (fun x => (x - mu) ^ 2)).sum / ((values.length : ℚ) - 1)

/-- `expected_utility(values, risk_lambda)`: mean minus risk-weighted
sample variance, the variance taken as 0 when fewer than two samples
exist.  The call in `score` uses the default `risk_lambda = 0.01`. -/
def Decision.expected_utility (values : List ℚ) (risk_lambda : ℚ) :
    Except String ℚ := do
  let mu ← Decision.pymean values
  let var := if 1 < values.length then Decision.pyvariance values else 0
  .ok (mu - risk_lambda * var)

/-- `combinational_impact(option)`: `learn/time + novelty/time +
fulfil/max(time, 1)` with `time` defaulting to 1 when the key is absent.
The first division raises `ZeroDivisionError` when `time_taken` is present
with value 0. -/
def Decision.combinational_impact (option : Decision.Option) :
    Except String ℚ :=
  let time := Params.getD option.params "time_taken" 1
  let learn := Params.getD option.params "learn_index" 0
  let novelty := Params.getD option.params "novelty_meter" 0
  let fulfil := Params.getD option.params "fulfilment_value" 0
  if time = 0 then
    .error "ZeroDivisionError: division by zero"
  else
    .ok (learn / time + novelty / time + fulfil / max time 1)

/-- Python `dict` assignment `d[k] = v`: update in place when `k` is
already a key (by `==`, which for `Decision.Option` is object identity),
append otherwise. -/
def dictInsert {K V : Type} [DecidableEq K] (d : List (K × V)) (k : K)
    (v : V) : List (K × V) :=
  if d.any (fun kv => kv.1 = k) then
    d.map (fun kv => if kv.1 = k then (k, v) else kv)
  else
    d ++ [(k, v)]

/-- `dict(pairs)`: left-to-right insertion. -/
def dictOfPairs {K V : Type} [DecidableEq K] (pairs : List (K × V)) :
    List (K × V) :=
  pairs.foldl (fun d kv => dictInsert d kv.1 kv.2) []

/-- Subscript lookup `d[k]`: raises `KeyError` when absent. -/
def dictGet {K V : Type} [DecidableEq K] (d : List (K × V)) (k : K) :
    Except String V :=
  match d.find? (fun kv => kv.1 = k) with
  | some kv => .ok kv.2
  | none => .error "KeyError"

/-- The per-criterion loop of `compute_normalized_scores`: for each
criterion, normalize the raw values across the candidate set and key the
results by option (`dict(zip(options, norm))`). -/
def Decision.normalizeCriteria (options : List Decision.Option) :
    List (String × (Decision.Option → ℚ)) →
    Except String (List (String × List (Decision.Option × ℚ)))
  | [] => .ok []
  | (crit_name, func) :: rest => do
      let norm ← Decision.normalize (options.map func)
      let tbl := dictOfPairs (options.zip norm)
      let restTbl ← Decision.normalizeCriteria options rest
      .ok ((crit_name, tbl) :: restTbl)

/-- `compute_normalized_scores(options)`. -/
def Decision.compute_normalized_scores (options : List Decision.Option) :
    Except String (List (String × List (Decision.Option × ℚ))) :=
  Decision.normalizeCriteria options Decision.CRITERIA

/-- The inner `for crit in CRITERIA` loop of `score`: accumulate
`normalized_scores[crit][opt] * weights.get(crit, 1.0)`. -/
def Decision.critTotal
    (normalized : List (String × List (Decision.Option × ℚ)))
    (weights : List (String × ℚ)) (opt : Decision.Option) (acc : ℚ) :
    List (String × (Decision.Option → ℚ)) → Except String ℚ
  | [] => .ok acc
  | (crit, _) :: rest => do
      let tbl ← dictGet normalized crit
      let v ← dictGet tbl opt
      Decision.critTotal normalized weights opt
        (acc + v * Params.getD weights crit 1) rest

/-- The `for opt in options` loop of `score`, threading the hidden
generator state and the `scores` dictionary. -/
def Decision.scoreLoop
    (normalized : List (String × List (Decision.Option × ℚ)))
    (weights : List (String × ℚ)) (context : Decision.Context) :
    List Decision.Option → List (Decision.Option × ℚ) → Decision.Rng →
    Except String (List (Decision.Option × ℚ) × Decision.Rng)
  | [], scores, g => .ok (scores, g)
  | opt :: rest, scores, g => do
      let total ← Decision.critTotal normalized weights opt 0
        Decision.CRITERIA
      let fg := Decision.simulate_fulfilment opt context 100 g
      let eu ← Decision.expected_utility fg.1 ((1 : ℚ) / 100)
      let ci ← Decision.combinational_impact opt
      Decision.scoreLoop normalized weights context rest
        (dictInsert scores opt (total + eu + ci)) fg.2

/-- `score(options, context)`: the Aggregator.  Returns the score
dictionary and the advanced hidden generator state. -/
def Decision.score (options : List Decision.Option)
    (context : Decision.Context) (g : Decision.Rng) :
    Except String (List (Decision.Option × ℚ) × Decision.Rng) := do
  let normalized ← Decision.compute_normalized_scores options
  let weights := Decision.compute_weights context
  Decision.scoreLoop normalized weights context options [] g

/-- The fold behind `max(scores, key=scores.get)`: keep the current best
unless a strictly greater value appears (Python `max` keeps the first
maximum). -/
def Decision.maxLoop (bk : Decision.Option) (bv : ℚ) :
    List (Decision.Option × ℚ) → Decision.Option
  | [] => bk
  | (k, v) :: rest =>
      if bv < v then Decision.maxLoop k v rest
      else Decision.maxLoop bk bv rest

/-- The selection step of `explain(scores)`:
`best = max(scores, key=scores.get)`.  Raises `ValueError` on an empty
dictionary; the surrounding `print` calls are I/O and carry no data. -/
def Decision.explain (scores : List (Decision.Option × ℚ)) :
    Except String Decision.Option :=
  match scores with
  | [] => .error "ValueError: max() arg is an empty sequence"
  | (k, v) :: rest => .ok (Decision.maxLoop k v rest)

/-- The "Read book" option of the shipped example data. -/
def exBook : Decision.Option :=
  ⟨0, "Read book",
   [("time_taken", 5), ("social_value", 2), ("novelty_meter", 3),
    ("learn_index", 5), ("move_heart", 1), ("fulfilment_value", 6)]⟩

/-- An option whose `time_taken` key is present with value 0. -/
def exZero : Decision.Option := ⟨0, "Idle", [("time_taken", 0)]⟩

/-- A feasible option (`time_taken = 3`). -/
def exPass : Decision.Option := ⟨0, "walk", [("time_taken", 3)]⟩

/-- An infeasible option (`time_taken = 99 > 35`). -/
def exFail : Decision.Option := ⟨1, "trek", [("time_taken", 99)]⟩

/-- Two distinct `Option` objects sharing the name "A": same name, distinct
object identity. -/
def exA1 : Decision.Option := ⟨1, "A", []⟩

/-- See `exA1`. -/
def exA2 : Decision.Option := ⟨2, "A", []⟩

/-- An option carrying only a fulfilment value. -/
def exF : Decision.Option := ⟨3, "F", [("fulfilment_value", 6)]⟩

/-- A neutral context. -/
def exCtx : Decision.Context := ⟨0, 0⟩

/-- The example context `device=1, pressing_matters=2`. -/
def exCtx1 : Decision.Context := ⟨1, 2⟩

/-- A hidden-generator state whose pending standard-normal draws are all
zero. -/
def exRngZero : Decision.Rng := fun _ => 0

/-- A hidden-generator state whose pending standard-normal draws are all
one. -/
def exRngOne : Decision.Rng := fun _ => 1

theorem foldl_min_le_init (xs : List ℚ) (x : ℚ) : xs.foldl min x ≤ x := by
  induction xs generalizing x with
  | nil => exact le_refl x
  | cons y ys ih =>
      exact le_trans (ih (min x y)) (min_le_left x y)

theorem foldl_min_le_mem (xs : List ℚ) (x a : ℚ) (ha : a ∈ xs) :
    xs.foldl min x ≤ a := by
  induction xs generalizing x with
  | nil => cases ha
  | cons y ys ih =>
      rcases List.mem_cons.mp ha with h | h
      · subst h
        exact le_trans (foldl_min_le_init ys (min x a)) (min_le_right x a)
      · exact ih (min x y) h

theorem init_le_foldl_max (xs : List ℚ) (x : ℚ) : x ≤ xs.foldl max x := by
  induction xs generalizing x with
  | nil => exact le_refl x
  | cons y ys ih =>
      exact le_trans (le_max_left x y) (ih (max x y))

theorem mem_le_foldl_max (xs : List ℚ) (x a : ℚ) (ha : a ∈ xs) :
    a ≤ xs.foldl max x := by
  induction xs generalizing x with
  | nil => cases ha
  | cons y ys ih =>
      rcases List.mem_cons.mp ha with h | h
      · subst h
        exact le_trans (le_max_right x a) (init_le_foldl_max ys (max x a))
      · exact ih (max x y) h

theorem foldl_min_mem (xs : List ℚ) (x : ℚ) :
    xs.foldl min x = x ∨ xs.foldl min x ∈ xs := by
  induction xs generalizing x with
  | nil => exact Or.inl rfl
  | cons y ys ih =>
      rcases ih (min x y) with h | h
      · rcases min_cases x y with ⟨hm, _⟩ | ⟨hm, _⟩
        · exact Or.inl (h.trans hm)
        · exact Or.inr (List.mem_cons.mpr (Or.inl (h.trans hm)))
      · exact Or.inr (List.mem_cons.mpr (Or.inr h))

theorem foldl_max_mem (xs : List ℚ) (x : ℚ) :
    xs.foldl max x = x ∨ xs.foldl max x ∈ xs := by
  induction xs generalizing x with
  | nil => exact Or.inl rfl
  | cons y ys ih =>
      rcases ih (max x y) with h | h
      · rcases max_cases x y with ⟨hm, _⟩ | ⟨hm, _⟩
        · exact Or.inl (h.trans hm)
        · exact Or.inr (List.mem_cons.mpr (Or.inl (h.trans hm)))
      · exact Or.inr (List.mem_cons.mpr (Or.inr h))

theorem pymin_le (l : List ℚ) (m a : ℚ) (hm : Decision.pymin l = .ok m)
    (ha : a ∈ l) : m ≤ a := by
  cases l with
  | nil => cases ha
  | cons x xs =>
      have hmx : m = xs.foldl min x := by
        simpa [Decision.pymin] using hm.symm
      subst hmx
      rcases List.mem_cons.mp ha with h | h
      · exact h ▸ foldl_min_le_init xs x
      · exact foldl_min_le_mem xs x a h

theorem le_pymax (l : List ℚ) (M a : ℚ) (hM : Decision.pymax l = .ok M)
    (ha : a ∈ l) : a ≤ M := by
  cases l with
  | nil => cases ha
  | cons x xs =>
      have hMx : M = xs.foldl max x := by
        simpa [Decision.pymax] using hM.symm
      subst hMx
      rcases List.mem_cons.mp ha with h | h
      · exact h ▸ init_le_foldl_max xs x
      · exact mem_le_foldl_max xs x a h

theorem pymin_mem (l : List ℚ) (m : ℚ) (hm : Decision.pymin l = .ok m) :
    m ∈ l := by
  cases l with
  | nil => simp [Decision.pymin] at hm
  | cons x xs =>
      have hmx : m = xs.foldl min x := by
        simpa [Decision.pymin] using hm.symm
      subst hmx
      rcases foldl_min_mem xs x with h | h
      · rw [h]
        exact List.mem_cons_self x xs
      · exact List.mem_cons.mpr (Or.inr h)

theorem pymax_mem (l : List ℚ) (M : ℚ) (hM : Decision.pymax l = .ok M) :
    M ∈ l := by
  cases l with
  | nil => simp [Decision.pymax] at hM
  | cons x xs =>
      have hMx : M = xs.foldl max x := by
        simpa [Decision.pymax] using hM.symm
      subst hMx
      rcases foldl_max_mem xs x with h | h
      · rw [h]
        exact List.mem_cons_self x xs
      · exact List.mem_cons.mpr (Or.inr h)

/-- C1: invoked with zero feasible options, `score` does not return an
empty mapping — it propagates the `ValueError` that `min` raises inside
`normalize` on the empty raw-value list, for every context and every
hidden-generator state. -/
theorem score_empty_candidates_raises (context : Decision.Context)
    (g : Decision.Rng) :
    Decision.score [] context g =
      .error "ValueError: min() arg is an empty sequence" := rfl

/-- C2: the selection step of `explain` on an empty score mapping raises
`ValueError` (from `max` over an empty sequence) rather than producing an
explicit "no feasible option" result. -/
theorem explain_empty_mapping_raises :
    Decision.explain [] = .error "ValueError: max() arg is an empty sequence" :=
  rfl

/-- C4: `simulate_fulfilment` has no generator parameter in the source; it
reads the hidden process-wide generator.  With identical explicit inputs
(option, context, sample count) but different pending hidden-generator
states, the produced sample sequences differ, so the samples are not a
function of the declared inputs alone. -/
theorem simulate_fulfilment_reads_hidden_state :
    (Decision.simulate_fulfilment exF exCtx1 1 exRngZero).1 ≠
      (Decision.simulate_fulfilment exF exCtx1 1 exRngOne).1 := by
  have hA : (Decision.simulate_fulfilment exF exCtx1 1 exRngZero).1 =
      [6 * (1 + (1 : ℚ) / 2 * 2 + (1 : ℚ) / 2 * 1) + (1 : ℚ) / 2 * 0] := rfl
  have hB : (Decision.simulate_fulfilment exF exCtx1 1 exRngOne).1 =
      [6 * (1 + (1 : ℚ) / 2 * 2 + (1 : ℚ) / 2 * 1) + (1 : ℚ) / 2 * 1] := rfl
  rw [hA, hB]
  norm_num

theorem Params.getD_eq_lookup (p : Params) (k : String) (d : ℚ) :
    Params.getD p k d = (Params.lookup p k).getD d := by
  rcases h : p.find? (fun kv => kv.1 = k) with _ | kv <;>
    simp [Params.getD, Params.lookup, h]

theorem combinational_impact_eval (o : Decision.Option)
    (h : Params.getD o.params "time_taken" 1 ≠ 0) :
    Decision.combinational_impact o =
      .ok (Params.getD o.params "learn_index" 0 /
            Params.getD o.params "time_taken" 1 +
          Params.getD o.params "novelty_meter" 0 /
            Params.getD o.params "time_taken" 1 +
          Params.getD o.params "fulfilment_value" 0 /
            max (Params.getD o.params "time_taken" 1) 1) := by
  simp only [Decision.combinational_impact]
  rw [if_neg h]

/-- C5: on a non-empty raw-value list, `normalize` returns the min-max
rescaled values, all of which lie in `[0, 1]`; when the minimum equals the
maximum, every output is exactly `1/2`. -/
theorem normalize_unit_interval (l : List ℚ) (h : l ≠ []) :
    ∃ m M out, Decision.pymin l = .ok m ∧ Decision.pymax l = .ok M ∧
      Decision.normalize l = .ok out ∧
      (∀ x ∈ out, 0 ≤ x ∧ x ≤ 1) ∧
      (m ≠ M → out = l.map (fun v => (v - m) / (M - m))) ∧
      (m = M → out = l.map (fun _ => (1 : ℚ) / 2)) := by
  cases l with
  | nil => exact absurd rfl h
  | cons x xs =>
      have hmin : Decision.pymin (x :: xs) = .ok (xs.foldl min x) := rfl
      have hmax : Decision.pymax (x :: xs) = .ok (xs.foldl max x) := rfl
      have hnorm : Decision.normalize (x :: xs) =
          if xs.foldl min x = xs.foldl max x then
            .ok ((x :: xs).map (fun _ => (1 : ℚ) / 2))
          else
            .ok ((x :: xs).map (fun s =>
              (s - xs.foldl min x) / (xs.foldl max x - xs.foldl min x))) := rfl
      by_cases hmM : xs.foldl min x = xs.foldl max x
      · refine ⟨xs.foldl min x, xs.foldl max x,
          (x :: xs).map (fun _ => (1 : ℚ) / 2), hmin, hmax, ?_, ?_, ?_, ?_⟩
        · rw [hnorm, if_pos hmM]
        · intro y hy
          rcases List.mem_map.mp hy with ⟨v, _, hv⟩
          constructor <;> rw [← hv] <;> norm_num
        · intro hne
          exact absurd hmM hne
        · intro _
          rfl
      · have hmem : xs.foldl min x ∈ x :: xs := pymin_mem (x :: xs) _ hmin
        have hle : xs.foldl min x ≤ xs.foldl max x :=
          le_pymax (x :: xs) _ _ hmax hmem
        have hlt : xs.foldl min x < xs.foldl max x := lt_of_le_of_ne hle hmM
        have hpos : 0 < xs.foldl max x - xs.foldl min x := sub_pos.mpr hlt
        refine ⟨xs.foldl min x, xs.foldl max x,
          (x :: xs).map (fun s =>
            (s - xs.foldl min x) / (xs.foldl max x - xs.foldl min x)),
          hmin, hmax, ?_, ?_, ?_, ?_⟩
        · rw [hnorm, if_neg hmM]
        · intro y hy
          rcases List.mem_map.mp hy with ⟨v, hv_mem, hv⟩
          have h1 : xs.foldl min x ≤ v := pymin_le (x :: xs) _ v hmin hv_mem
          have h2 : v ≤ xs.foldl max x := le_pymax (x :: xs) _ v hmax hv_mem
          subst hv
          constructor
          · exact div_nonneg (sub_nonneg.mpr h1) hpos.le
          · rw [div_le_one hpos]
            exact sub_le_sub_right h2 _
        · intro _
          rfl
        · intro heq
          exact absurd heq hmM

/-- Witness for C5 at the concrete raw-value list `[1, 3]`. -/
theorem normalize_unit_interval_witness :
    (([1, 3] : List ℚ) ≠ []) ∧
    (∃ m M out, Decision.pymin [1, 3] = .ok m ∧
      Decision.pymax [1, 3] = .ok M ∧
      Decision.normalize [1, 3] = .ok out ∧
      (∀ x ∈ out, 0 ≤ x ∧ x ≤ 1) ∧
      (m ≠ M → out = [1, 3].map (fun v => (v - m) / (M - m))) ∧
      (m = M → out = [1, 3].map (fun _ => (1 : ℚ) / 2))) :=
  ⟨by simp, normalize_unit_interval [1, 3] (by simp)⟩

/-- C6: `apply_constraints` returns the ordered subsequence of its input
on which every configured predicate holds; under the shipped configuration
an input option survives exactly when its `time_taken` attribute (default
0) is at most 35. -/
theorem apply_constraints_spec (l : List Decision.Option) :
    List.Sublist (Decision.apply_constraints l) l ∧
    (∀ o, o ∈ Decision.apply_constraints l ↔
      o ∈ l ∧ ∀ c ∈ Decision.CONSTRAINTS, c o = true) ∧
    (∀ o ∈ l, (o ∈ Decision.apply_constraints l ↔
      Params.getD o.params "time_taken" 0 ≤ 35)) := by
  refine ⟨List.filter_sublist l, ?_, ?_⟩
  · intro o
    rw [Decision.apply_constraints, List.mem_filter]
    simp [List.all_eq_true]
  · intro o ho
    rw [Decision.apply_constraints, List.mem_filter]
    simp [Decision.CONSTRAINTS, Decision.time_constraint, ho]

/-- Witness for C6 on a two-option list: the `time_taken = 3` option
survives and the `time_taken = 99` option is rejected. -/
theorem apply_constraints_spec_witness :
    exPass ∈ Decision.apply_constraints [exPass, exFail] ∧
    ¬ exFail ∈ Decision.apply_constraints [exPass, exFail] :=
  ⟨((apply_constraints_spec [exPass, exFail]).2.2 exPass (by simp)).mpr
      (by rw [show Params.getD exPass.params "time_taken" 0 = 3 from rfl]
          norm_num),
   fun hmem =>
     by have h99 :=
          ((apply_constraints_spec [exPass, exFail]).2.2 exFail
            (by simp)).mp hmem
        rw [show Params.getD exFail.params "time_taken" 0 = 99 from rfl] at h99
        norm_num at h99⟩

/-- C7: `expected_utility` returns the mean minus `risk_lambda` times the
sample variance (sum of squared deviations over `n - 1`), the variance
taken as 0 when fewer than two samples exist; on `[5,5,5,5]` with
`risk_lambda = 0.01` it returns exactly 5, and on `[4,6]` exactly
`4.98 = 249/50`. -/
theorem expected_utility_spec (values : List ℚ) (lam : ℚ)
    (h : values ≠ []) :
    Decision.expected_utility values lam =
      .ok (values.sum / (values.length : ℚ) -
        lam * (if 1 < values.length then
          ((values.map (fun x =>
            (x - values.sum / (values.length : ℚ)) ^ 2)).sum) /
            ((values.length : ℚ) - 1)
          else 0)) ∧
    Decision.expected_utility [5, 5, 5, 5] ((1 : ℚ) / 100) = .ok 5 ∧
    Decision.expected_utility [4, 6] ((1 : ℚ) / 100) = .ok (249 / 50) := by
  have hgen : ∀ (v : List ℚ) (l : ℚ), v ≠ [] →
      Decision.expected_utility v l =
        .ok (v.sum / (v.length : ℚ) -
          l * (if 1 < v.length then
            ((v.map (fun x => (x - v.sum / (v.length : ℚ)) ^ 2)).sum) /
              ((v.length : ℚ) - 1)
            else 0)) := by
    intro v l hv
    cases v with
    | nil => exact absurd rfl hv
    | cons y ys => rfl
  refine ⟨hgen values lam h, ?_, ?_⟩
  · rw [hgen [5, 5, 5, 5] ((1 : ℚ) / 100) (by simp)]
    norm_num
  · rw [hgen [4, 6] ((1 : ℚ) / 100) (by simp)]
    norm_num

/-- Witness for C7 at the concrete sample list `[4, 6]`. -/
theorem expected_utility_spec_witness :
    (([4, 6] : List ℚ) ≠ []) ∧
    (Decision.expected_utility [4, 6] ((1 : ℚ) / 100) =
      .ok (([4, 6] : List ℚ).sum / (([4, 6] : List ℚ).length : ℚ) -
        (1 : ℚ) / 100 * (if 1 < ([4, 6] : List ℚ).length then
          ((([4, 6] : List ℚ).map (fun x =>
            (x - ([4, 6] : List ℚ).sum /
              (([4, 6] : List ℚ).length : ℚ)) ^ 2)).sum) /
            ((([4, 6] : List ℚ).length : ℚ) - 1)
          else 0)) ∧
    Decision.expected_utility [5, 5, 5, 5] ((1 : ℚ) / 100) = .ok 5 ∧
    Decision.expected_utility [4, 6] ((1 : ℚ) / 100) = .ok (249 / 50)) :=
  ⟨by simp, expected_utility_spec [4, 6] ((1 : ℚ) / 100) (by simp)⟩

/-- C8: `combinational_impact` returns
`learn/time + novelty/time + fulfil/max(time, 1)` with `time` the
`time_taken` attribute defaulting to 1 when absent (stated under the
non-zero-time precondition that C10 records); on the "Read book" example
(`time_taken=5, learn_index=5, novelty_meter=3, fulfilment_value=6`) it
returns exactly `2.8 = 14/5`. -/
theorem combinational_impact_formula (o : Decision.Option)
    (h : Params.getD o.params "time_taken" 1 ≠ 0) :
    Decision.combinational_impact o =
      .ok (Params.getD o.params "learn_index" 0 /
            Params.getD o.params "time_taken" 1 +
          Params.getD o.params "novelty_meter" 0 /
            Params.getD o.params "time_taken" 1 +
          Params.getD o.params "fulfilment_value" 0 /
            max (Params.getD o.params "time_taken" 1) 1) ∧
    Decision.combinational_impact exBook = .ok (14 / 5) := by
  refine ⟨combinational_impact_eval o h, ?_⟩
  have hB : Decision.combinational_impact exBook =
      .ok ((5 : ℚ) / 5 + 3 / 5 + 6 / max (5 : ℚ) 1) := by
    rw [combinational_impact_eval exBook
      (by rw [show Params.getD exBook.params "time_taken" 1 = 5 from rfl]
          norm_num)]
    rfl
  rw [hB, max_eq_left (by norm_num : (1 : ℚ) ≤ 5)]
  norm_num

/-- Witness for C8 at the "Read book" example option. -/
theorem combinational_impact_formula_witness :
    Params.getD exBook.params "time_taken" 1 ≠ 0 ∧
    (Decision.combinational_impact exBook =
      .ok (Params.getD exBook.params "learn_index" 0 /
            Params.getD exBook.params "time_taken" 1 +
          Params.getD exBook.params "novelty_meter" 0 /
            Params.getD exBook.params "time_taken" 1 +
          Params.getD exBook.params "fulfilment_value" 0 /
            max (Params.getD exBook.params "time_taken" 1) 1) ∧
    Decision.combinational_impact exBook = .ok (14 / 5)) :=
  ⟨by rw [show Params.getD exBook.params "time_taken" 1 = 5 from rfl]
      norm_num,
   combinational_impact_formula exBook
     (by rw [show Params.getD exBook.params "time_taken" 1 = 5 from rfl]
         norm_num)⟩

/-- C9: `compute_weights` assigns the time criterion `1 + pressing_matters`
and every other shipped criterion the fixed weight 1; for
`pressing_matters = 2` the time weight is 3, and for a non-negative
`pressing_matters` every weight is non-negative. -/
theorem compute_weights_spec (c : Decision.Context) :
    Params.getD (Decision.compute_weights c) "time_score" 1 =
      1 + c.pressing_matters ∧
    Params.getD (Decision.compute_weights c) "social_score" 1 = 1 ∧
    Params.getD (Decision.compute_weights c) "novelty_score" 1 = 1 ∧
    Params.getD (Decision.compute_weights c) "learn_score" 1 = 1 ∧
    Params.getD (Decision.compute_weights c) "emotional_score" 1 = 1 ∧
    (c.pressing_matters = 2 →
      Params.getD (Decision.compute_weights c) "time_score" 1 = 3) ∧
    (0 ≤ c.pressing_matters →
      ∀ w ∈ (Decision.compute_weights c).map Prod.snd, 0 ≤ w) := by
  have ht : Params.getD (Decision.compute_weights c) "time_score" 1 =
      1 + c.pressing_matters := rfl
  refine ⟨ht, rfl, rfl, rfl, rfl, ?_, ?_⟩
  · intro h2
    rw [ht, h2]
    norm_num
  · intro hpm w hw
    simp only [Decision.compute_weights, List.map_cons, List.map_nil,
      List.mem_cons, List.not_mem_nil, or_false] at hw
    rcases hw with h | h | h | h | h <;> subst h <;> linarith

/-- Witness for C9 at the example context `device=1, pressing_matters=2`. -/
theorem compute_weights_spec_witness :
    exCtx1.pressing_matters = 2 ∧
    Params.getD (Decision.compute_weights exCtx1) "time_score" 1 = 3 ∧
    (0 ≤ exCtx1.pressing_matters) ∧
    ∀ w ∈ (Decision.compute_weights exCtx1).map Prod.snd, 0 ≤ w :=
  ⟨rfl, (compute_weights_spec exCtx1).2.2.2.2.2.1 rfl,
   by rw [show exCtx1.pressing_matters = 2 from rfl]; norm_num,
   (compute_weights_spec exCtx1).2.2.2.2.2.2
     (by rw [show exCtx1.pressing_matters = 2 from rfl]; norm_num)⟩

/-- C10: `combinational_impact` is total exactly when `time_taken` is
absent or non-zero: a present `time_taken` of 0 makes the unguarded
division `learn/time` raise `ZeroDivisionError`; when the key is absent
the default 1 applies and the call succeeds, and a present non-zero value
also succeeds. -/
theorem combinational_impact_requires_nonzero_time (o : Decision.Option) :
    (Params.lookup o.params "time_taken" = some 0 →
      Decision.combinational_impact o =
        .error "ZeroDivisionError: division by zero") ∧
    (∀ t, Params.lookup o.params "time_taken" = some t → t ≠ 0 →
      ∃ v, Decision.combinational_impact o = .ok v) ∧
    (Params.lookup o.params "time_taken" = none →
      ∃ v, Decision.combinational_impact o = .ok v) := by
  refine ⟨?_, ?_, ?_⟩
  · intro h0
    have ht : Params.getD o.params "time_taken" 1 = 0 := by
      rw [Params.getD_eq_lookup, h0]
      rfl
    simp only [Decision.combinational_impact]
    rw [if_pos ht]
  · intro t hlt htne
    have ht : Params.getD o.params "time_taken" 1 = t := by
      rw [Params.getD_eq_lookup, hlt]
      rfl
    exact ⟨_, combinational_impact_eval o (by rw [ht]; exact htne)⟩
  · intro hnone
    have ht : Params.getD o.params "time_taken" 1 = 1 := by
      rw [Params.getD_eq_lookup, hnone]
      rfl
    exact ⟨_, combinational_impact_eval o (by rw [ht]; norm_num)⟩

/-- Witness for C10 at an option whose `time_taken` key is present with
value 0. -/
theorem combinational_impact_requires_nonzero_time_witness :
    Params.lookup exZero.params "time_taken" = some 0 ∧
    Decision.combinational_impact exZero =
      .error "ZeroDivisionError: division by zero" :=
  ⟨rfl, (combinational_impact_requires_nonzero_time exZero).1 rfl⟩

theorem exceptOkBind {α β : Type} (a : α) (f : α → Except String β) :
    (Except.ok a >>= f : Except String β) = f a := rfl

theorem dictInsert_keys_of_not_mem {K V : Type} [DecidableEq K]
    (d : List (K × V)) (k : K) (v : V) (h : k ∉ d.map Prod.fst) :
    (dictInsert d k v).map Prod.fst = d.map Prod.fst ++ [k] := by
  have hany : d.any (fun kv => kv.1 = k) = false := by
    simp only [List.any_eq_false, decide_eq_true_eq]
    intro kv hkv hk
    exact h (List.mem_map.mpr ⟨kv, hkv, hk⟩)
  rw [dictInsert, if_neg (by simp [hany])]
  simp

theorem mem_keys_dictInsert {K V : Type} [DecidableEq K]
    (d : List (K × V)) (k : K) (v : V) (a : K) :
    a ∈ (dictInsert d k v).map Prod.fst ↔ a ∈ d.map Prod.fst ∨ a = k := by
  by_cases hany : d.any (fun kv => kv.1 = k) = true
  · have hkeys : ((d.map (fun kv => if kv.1 = k then (k, v) else kv)).map
        Prod.fst) = d.map Prod.fst := by
      rw [List.map_map]
      apply List.map_congr_left
      intro kv _
      by_cases hkv : kv.1 = k
      · simp [hkv]
      · simp [hkv]
    have hkmem : k ∈ d.map Prod.fst := by
      rcases List.any_eq_true.mp hany with ⟨kv, hkv, hk⟩
      exact List.mem_map.mpr ⟨kv, hkv, by simpa using hk⟩
    rw [dictInsert, if_pos hany, hkeys]
    constructor
    · exact Or.inl
    · rintro (h | rfl)
      · exact h
      · exact hkmem
  · rw [dictInsert, if_neg hany]
    simp

theorem mem_keys_foldl_dictInsert {K V : Type} [DecidableEq K]
    (pairs : List (K × V)) :
    ∀ (d : List (K × V)) (a : K),
      (a ∈ (pairs.foldl (fun d kv => dictInsert d kv.1 kv.2) d).map
        Prod.fst ↔ a ∈ d.map Prod.fst ∨ a ∈ pairs.map Prod.fst) := by
  induction pairs with
  | nil => intro d a; simp
  | cons kv rest ih =>
      intro d a
      rw [List.foldl_cons, ih (dictInsert d kv.1 kv.2) a,
        mem_keys_dictInsert]
      simp only [List.map_cons, List.mem_cons]
      tauto

theorem mem_keys_dictOfPairs {K V : Type} [DecidableEq K]
    (pairs : List (K × V)) (a : K) :
    a ∈ (dictOfPairs pairs).map Prod.fst ↔ a ∈ pairs.map Prod.fst := by
  rw [dictOfPairs, mem_keys_foldl_dictInsert]
  simp

theorem dictGet_ok_of_mem_keys {K V : Type} [DecidableEq K]
    (d : List (K × V)) (k : K) (h : k ∈ d.map Prod.fst) :
    ∃ v, dictGet d k = .ok v := by
  induction d with
  | nil => simp at h
  | cons kv rest ih =>
      by_cases hk : kv.1 = k
      · refine ⟨kv.2, ?_⟩
        simp only [dictGet]
        rw [List.find?_cons_of_pos _ (by simp [hk])]
      · have h' : k ∈ rest.map Prod.fst := by
          rcases List.mem_map.mp h with ⟨kv', hkv', hfst⟩
          rcases List.mem_cons.mp hkv' with rfl | hmem
          · exact absurd hfst hk
          · exact List.mem_map.mpr ⟨kv', hmem, hfst⟩
        rcases ih h' with ⟨v, hv⟩
        refine ⟨v, ?_⟩
        simp only [dictGet] at hv ⊢
        rw [List.find?_cons_of_neg _ (by simp [hk])]
        exact hv

theorem gaussList_length (mu sigma : ℚ) (n : Nat) :
    ∀ g, (Decision.gaussList mu sigma n g).1.length = n := by
  induction n with
  | zero => intro g; rfl
  | succ k ih =>
      intro g
      simp only [Decision.gaussList, List.length_cons]
      rw [ih]

theorem expected_utility_ok (values : List ℚ) (lam : ℚ)
    (h : values ≠ []) :
    ∃ v, Decision.expected_utility values lam = .ok v := by
  cases values with
  | nil => exact absurd rfl h
  | cons x xs => exact ⟨_, rfl⟩

theorem normalize_ok_length (l : List ℚ) (h : l ≠ []) :
    ∃ out, Decision.normalize l = .ok out ∧ out.length = l.length := by
  cases l with
  | nil => exact absurd rfl h
  | cons x xs =>
      have hnorm : Decision.normalize (x :: xs) =
          if xs.foldl min x = xs.foldl max x then
            .ok ((x :: xs).map (fun _ => (1 : ℚ) / 2))
          else
            .ok ((x :: xs).map (fun s =>
              (s - xs.foldl min x) / (xs.foldl max x - xs.foldl min x))) :=
        rfl
      by_cases hmM : xs.foldl min x = xs.foldl max x
      · exact ⟨_, by rw [hnorm, if_pos hmM], by simp⟩
      · exact ⟨_, by rw [hnorm, if_neg hmM], by simp⟩

theorem normalizeCriteria_cover (options : List Decision.Option)
    (h : options ≠ []) :
    ∀ crits : List (String × (Decision.Option → ℚ)),
      ∃ tbl, Decision.normalizeCriteria options crits = .ok tbl ∧
        ∀ cf ∈ crits, ∃ t, dictGet tbl cf.1 = .ok t ∧
          ∀ opt ∈ options, ∃ v, dictGet t opt = .ok v := by
  intro crits
  induction crits with
  | nil => exact ⟨[], rfl, by simp⟩
  | cons cf0 rest ih =>
      obtain ⟨restTbl, hrest, hcovrest⟩ := ih
      obtain ⟨name, f⟩ := cf0
      have hmapne : options.map f ≠ [] := by
        intro hm
        exact h (List.map_eq_nil_iff.mp hm)
      obtain ⟨out, hout, hlen⟩ := normalize_ok_length (options.map f) hmapne
      have hstep : Decision.normalizeCriteria options ((name, f) :: rest) =
          .ok ((name, dictOfPairs (options.zip out)) :: restTbl) := by
        rw [Decision.normalizeCriteria]
        simp only [hout, exceptOkBind, hrest]
      have htbl0 : ∀ opt ∈ options,
          ∃ v, dictGet (dictOfPairs (options.zip out)) opt = .ok v := by
        intro opt hopt
        apply dictGet_ok_of_mem_keys
        rw [mem_keys_dictOfPairs]
        rw [List.map_fst_zip options out
          (by rw [hlen, List.length_map])]
        exact hopt
      refine ⟨(name, dictOfPairs (options.zip out)) :: restTbl, hstep, ?_⟩
      intro cf hcf
      rcases List.mem_cons.mp hcf with rfl | hmem
      · refine ⟨dictOfPairs (options.zip out), ?_, htbl0⟩
        simp only [dictGet]
        rw [List.find?_cons_of_pos _ (by simp)]
      · by_cases heq : cf.1 = name
        · refine ⟨dictOfPairs (options.zip out), ?_, htbl0⟩
          simp only [dictGet]
          rw [List.find?_cons_of_pos _ (by simp [heq])]
        · obtain ⟨t, ht, htc⟩ := hcovrest cf hmem
          refine ⟨t, ?_, htc⟩
          simp only [dictGet] at ht ⊢
          rw [List.find?_cons_of_neg _
            (by simp only [decide_eq_true_eq]
                exact fun hh => heq hh.symm)]
          exact ht

theorem critTotal_ok
    (normalized : List (String × List (Decision.Option × ℚ)))
    (weights : List (String × ℚ)) (opt : Decision.Option) :
    ∀ crits : List (String × (Decision.Option → ℚ)),
      (∀ cf ∈ crits, ∃ t, dictGet normalized cf.1 = .ok t ∧
        ∃ v, dictGet t opt = .ok v) →
      ∀ acc, ∃ r, Decision.critTotal normalized weights opt acc crits =
        .ok r := by
  intro crits
  induction crits with
  | nil => exact fun _ acc => ⟨acc, rfl⟩
  | cons cf rest ih =>
      intro hcov acc
      obtain ⟨name, f⟩ := cf
      obtain ⟨t, ht, v, hv⟩ := hcov (name, f) (List.mem_cons_self _ _)
      have ht' : dictGet normalized name = .ok t := ht
      obtain ⟨r, hr⟩ :=
        ih (fun cf' h' => hcov cf' (List.mem_cons_of_mem _ h'))
          (acc + v * Params.getD weights name 1)
      refine ⟨r, ?_⟩
      rw [Decision.critTotal]
      simp only [ht', exceptOkBind, hv]
      exact hr

theorem scoreLoop_ok_keys
    (normalized : List (String × List (Decision.Option × ℚ)))
    (weights : List (String × ℚ)) (context : Decision.Context) :
    ∀ (options : List Decision.Option)
      (scores : List (Decision.Option × ℚ)) (g : Decision.Rng),
      (scores.map Prod.fst ++ options).Nodup →
      (∀ opt ∈ options,
        (∃ tv, Decision.critTotal normalized weights opt 0
          Decision.CRITERIA = .ok tv) ∧
        Params.getD opt.params "time_taken" 1 ≠ 0) →
      ∃ res g',
        Decision.scoreLoop normalized weights context options scores g =
          .ok (res, g') ∧
        res.map Prod.fst = scores.map Prod.fst ++ options := by
  intro options
  induction options with
  | nil =>
      intro scores g _ _
      exact ⟨scores, g, rfl, by simp⟩
  | cons opt rest ih =>
      intro scores g hnodup hprops
      obtain ⟨⟨tv, htv⟩, htime⟩ := hprops opt (List.mem_cons_self _ _)
      have hlen : (Decision.simulate_fulfilment opt context 100 g).1.length =
          100 := gaussList_length _ _ 100 g
      have hsam : (Decision.simulate_fulfilment opt context 100 g).1 ≠ [] := by
        intro hnil
        rw [hnil] at hlen
        simp at hlen
      obtain ⟨ev, hev⟩ := expected_utility_ok _ ((1 : ℚ) / 100) hsam
      obtain ⟨cv, hcv⟩ : ∃ v, Decision.combinational_impact opt = .ok v :=
        ⟨_, combinational_impact_eval opt htime⟩
      have hopt_not : opt ∉ scores.map Prod.fst := by
        intro hmem
        exact (List.nodup_append.mp hnodup).2.2 hmem
          (List.mem_cons_self _ _)
      have hkeys' : (dictInsert scores opt (tv + ev + cv)).map Prod.fst =
          scores.map Prod.fst ++ [opt] :=
        dictInsert_keys_of_not_mem _ _ _ hopt_not
      have hnodup' : ((dictInsert scores opt (tv + ev + cv)).map Prod.fst ++
          rest).Nodup := by
        rw [hkeys', List.append_assoc, List.singleton_append]
        exact hnodup
      have hprops' : ∀ o ∈ rest,
          (∃ tv, Decision.critTotal normalized weights o 0
            Decision.CRITERIA = .ok tv) ∧
          Params.getD o.params "time_taken" 1 ≠ 0 :=
        fun o ho => hprops o (List.mem_cons_of_mem _ ho)
      obtain ⟨res, g', hrun, hkeys⟩ :=
        ih (dictInsert scores opt (tv + ev + cv))
          (Decision.simulate_fulfilment opt context 100 g).2 hnodup' hprops'
      refine ⟨res, g', ?_, ?_⟩
      · rw [Decision.scoreLoop]
        simp only [htv, exceptOkBind, hev, hcv]
        exact hrun
      · rw [hkeys, hkeys', List.append_assoc, List.singleton_append]

/-- C3: the aggregate score mapping is keyed by object identity, not by
name: the source's `Option` defines `__hash__` by name but no `__eq__`, so
two distinct `Option` objects sharing the name "A" are distinct dictionary
keys, and `score` produces one entry for each rather than one canonical
entry per name. -/
theorem score_keys_by_object_identity :
    ∃ res g',
      Decision.score [exA1, exA2] exCtx exRngZero = .ok (res, g') ∧
      res.map Prod.fst = [exA1, exA2] ∧
      exA1.name = exA2.name ∧ exA1 ≠ exA2 := by
  obtain ⟨tbl, htbl, hcov⟩ :=
    normalizeCriteria_cover [exA1, exA2] (by simp) Decision.CRITERIA
  have hprops : ∀ opt ∈ [exA1, exA2],
      (∃ tv, Decision.critTotal tbl (Decision.compute_weights exCtx) opt 0
        Decision.CRITERIA = .ok tv) ∧
      Params.getD opt.params "time_taken" 1 ≠ 0 := by
    intro opt hopt
    constructor
    · exact critTotal_ok tbl (Decision.compute_weights exCtx) opt
        Decision.CRITERIA
        (fun cf hcf =>
          let ⟨t, ht, htc⟩ := hcov cf hcf
          ⟨t, ht, htc opt hopt⟩) 0
    · rcases List.mem_cons.mp hopt with rfl | h2
      · rw [show Params.getD exA1.params "time_taken" 1 = 1 from rfl]
        norm_num
      · rcases List.mem_cons.mp h2 with rfl | h3
        · rw [show Params.getD exA2.params "time_taken" 1 = 1 from rfl]
          norm_num
        · cases h3
  obtain ⟨res, g', hrun, hkeys⟩ :=
    scoreLoop_ok_keys tbl (Decision.compute_weights exCtx) exCtx
      [exA1, exA2] [] exRngZero (by decide) hprops
  refine ⟨res, g', ?_, ?_, rfl, by decide⟩
  · simp only [Decision.score, Decision.compute_normalized_scores]
    simp only [htbl, exceptOkBind]
    exact hrun
  · simpa using hkeys
